import Mathlib

/-
Verification development for the patient-scheduling repository.

Shallow embedding of src/backend/solver.py. The deterministic parts of
`solve_schedule` (input normalization, pin classification, mode selection,
solution extraction, the empty-input fast path) are translated directly.
The CP-SAT solve itself is modelled by quantifying over assignments to the
decision variables (whole-mode starts, split-mode starts, mode selectors)
that satisfy the hard constraints of the model; `Satisfies` below is the
exact projection of the hard-constraint set onto those variables.  All
auxiliary CP variables of the source model (end variables, min_start,
max_end, span, makespan, effective-start selectors, arrival-touchpoint
booleans, priority delays) are either functionally determined by the
projected variables or unconstrained-satisfiable, so a projected
assignment extends to a full model solution iff it satisfies `Satisfies`;
this is argued constraint-by-constraint in the comments below.
-/

-- ---------------------------------------------------------------------------
-- Pydantic models (solver.py lines 19-73)
-- ---------------------------------------------------------------------------

structure SolvePatient where
  name : String
  arrival_time : String
deriving DecidableEq

structure SolveTeam where
  id : String
  name : String
  specialty_ids : List String
  duration : Int := 30
  priority : Int := 0
  auto_schedule : Bool := true
  capacity : Int := 1
deriving DecidableEq

structure SolveSpecialty where
  id : String
  name : String
deriving DecidableEq

structure PinnedSlot where
  patient_name : String
  time_slot : String
  team_id : String
  is_split : Bool := false
  original_team_id : Option String := none
  split_specialty_id : Option String := none
deriving DecidableEq

/-- Default clinic-day grid (solver.py lines 53-56). -/
def defaultTimeSlots : List String :=
  ["8:00", "8:30", "9:00", "9:30", "10:00", "10:30",
   "11:00", "11:30", "12:00", "12:30", "13:00", "13:30"]

structure SolveRequest where
  patients : List SolvePatient
  teams : List SolveTeam
  specialties : List SolveSpecialty
  pinned_slots : List PinnedSlot := []
  time_slots : List String := defaultTimeSlots
deriving DecidableEq

structure SolveResultSlot where
  patient_name : String
  time_slot : String
  team_id : String
  pinned : Bool := false
  is_split : Bool := false
  original_team_id : Option String := none
  split_specialty_id : Option String := none
deriving DecidableEq

/-- Response projection: status and slots.  (solve_time_ms measures wall-clock
time and message carries diagnostics; neither is modelled.) -/
structure SolveResponse where
  status : String
  slots : List SolveResultSlot
deriving DecidableEq

-- ---------------------------------------------------------------------------
-- Python-semantics helpers
-- ---------------------------------------------------------------------------

/-- Python truthiness of an `Optional[str]` value: `None` and `""` are falsy. -/
def optTruthy : Option String → Bool
  | none => false
  | some s => s ≠ ""

/-- Python `a or b` where `a : Optional[str]` and `b : str`. -/
def pyOr : Option String → String → String
  | some s, d => if s = "" then d else s
  | none, d => d

/-- Projection of `OptProp o P`: holds vacuously for `none`. -/
def OptProp {α : Type} (o : Option α) (P : α → Prop) : Prop :=
  match o with
  | none => True
  | some x => P x

instance {α : Type} (o : Option α) (P : α → Prop) [∀ x, Decidable (P x)] :
    Decidable (OptProp o P) :=
  match o with
  | none => .isTrue trivial
  | some x => inferInstanceAs (Decidable (P x))

/-- time_to_index (solver.py lines 80-82).  `list.index` raises ValueError when
the label is absent; the solver only evaluates it where `normalizeOk`
records success, so the total `indexOf` agrees with the source there. -/
def time_to_index (t : String) (slots : List String) : Nat :=
  slots.indexOf t

/-- index_to_time (solver.py lines 85-87).  Python raises IndexError when the
index is out of range; that is unreachable for the indices produced by a
valid model (every start domain is within the horizon). -/
def index_to_time (i : Nat) (slots : List String) : String :=
  slots.getD i ""

-- ---------------------------------------------------------------------------
-- Input normalization (solver.py lines 98-133)
-- ---------------------------------------------------------------------------

def autoTeams (req : SolveRequest) : List SolveTeam :=
  req.teams.filter (·.auto_schedule)

def nonAutoTeamsList (req : SolveRequest) : List SolveTeam :=
  req.teams.filter (fun t => !t.auto_schedule)

/-- Keys of the `non_auto_teams` dict (line 102). -/
def nonAutoIds (req : SolveRequest) : List String :=
  (nonAutoTeamsList req).map (·.id)

/-- Keys of the `team_idx` dict (line 114). -/
def autoIds (req : SolveRequest) : List String :=
  (autoTeams req).map (·.id)

/-- Lookup in the `non_auto_teams` dict; a later duplicate id overwrites an
earlier one, so the last matching team wins. -/
def nonAutoTeamGet (req : SolveRequest) (tid : String) : Option SolveTeam :=
  (nonAutoTeamsList req).reverse.find? (fun t => t.id == tid)

def numPatients (req : SolveRequest) : Nat := req.patients.length

def numTeams (req : SolveRequest) : Nat := (autoTeams req).length

def horizon (req : SolveRequest) : Nat := req.time_slots.length

def patientNames (req : SolveRequest) : List String :=
  req.patients.map (·.name)

def patientAt (req : SolveRequest) (p : Nat) : SolvePatient :=
  req.patients.getD p ⟨"", ""⟩

def teamAt (req : SolveRequest) (t : Nat) : SolveTeam :=
  (autoTeams req).getD t ⟨"", "", [], 30, 0, true, 1⟩

/-- The `patient_idx` dict (line 113): name to index, later duplicates
overwrite earlier ones. -/
def patientIdxOf (req : SolveRequest) (pname : String) : Option Nat :=
  ((List.range (numPatients req)).filter
    (fun p => (patientAt req p).name == pname)).getLast?

/-- Pin classification, non-auto case (solver.py line 123): the pin's
`team_id` is a non-auto team id, or its `original_team_id` is truthy and a
non-auto team id. -/
def isNonAutoPin (req : SolveRequest) (ps : PinnedSlot) : Bool :=
  (nonAutoIds req).contains ps.team_id ||
    (optTruthy ps.original_team_id &&
      (nonAutoIds req).contains (ps.original_team_id.getD ""))

/-- Pin classification, auto split case (solver.py line 125). -/
def isAutoSplitPin (req : SolveRequest) (ps : PinnedSlot) : Bool :=
  !isNonAutoPin req ps && ps.is_split && optTruthy ps.original_team_id &&
    optTruthy ps.split_specialty_id

/-- Pin classification, auto whole case (solver.py lines 127-133). -/
def isAutoWholePin (req : SolveRequest) (ps : PinnedSlot) : Bool :=
  !isNonAutoPin req ps && !isAutoSplitPin req ps

/-- Effective team id of a whole auto pin (solver.py lines 129-132): the
`original_team_id` when truthy and an auto team id, else the `team_id`. -/
def realTeamId (req : SolveRequest) (ps : PinnedSlot) : String :=
  if optTruthy ps.original_team_id &&
      (autoIds req).contains (ps.original_team_id.getD "") then
    ps.original_team_id.getD ""
  else ps.team_id

/-- Lookup in the `pinned_auto` dict keyed by `(patient_name, real_team_id)`
(line 133); a later pin with the same key overwrites an earlier one. -/
def wholePinFor (req : SolveRequest) (pname tid : String) : Option PinnedSlot :=
  (req.pinned_slots.filter (fun ps =>
    isAutoWholePin req ps && ps.patient_name == pname &&
      realTeamId req ps == tid)).getLast?

/-- Lookup in the `pinned_auto_splits` dict keyed by
`(patient_name, original_team_id, split_specialty_id)` (line 126). -/
def splitPinFor (req : SolveRequest) (pname tid spec : String) :
    Option PinnedSlot :=
  (req.pinned_slots.filter (fun ps =>
    isAutoSplitPin req ps && ps.patient_name == pname &&
      ps.original_team_id == some tid &&
      ps.split_specialty_id == some spec)).getLast?

/-- The `pinned_non_auto` list (line 124), in request order. -/
def pinned_non_auto (req : SolveRequest) : List PinnedSlot :=
  req.pinned_slots.filter (isNonAutoPin req)

/-- Non-auto pins that actually enter the model: those whose patient is known
(solver.py lines 156-158 skip unknown patients). -/
def nonAutoModelPins (req : SolveRequest) : List PinnedSlot :=
  (pinned_non_auto req).filter
    (fun ps => (patientNames req).contains ps.patient_name)

-- ---------------------------------------------------------------------------
-- Model quantities (solver.py lines 190-228)
-- ---------------------------------------------------------------------------

/-- Per-team slot count (line 196): `team.duration // 30`, Python floor
division with a hardcoded 30-minute granularity. -/
def durSlots (tm : SolveTeam) : Int := Int.fdiv tm.duration 30

/-- Line 198: a team is splittable iff it covers at least two specialties
(list length, duplicates counted). -/
def is_splittable (tm : SolveTeam) : Bool :=
  decide (2 ≤ tm.specialty_ids.length)

def arrIdx (req : SolveRequest) (p : Nat) : Nat :=
  time_to_index (patientAt req p).arrival_time req.time_slots

def force_whole (req : SolveRequest) (p t : Nat) : Bool :=
  (wholePinFor req (patientAt req p).name (teamAt req t).id).isSome

def force_split (req : SolveRequest) (p t : Nat) : Bool :=
  (teamAt req t).specialty_ids.any (fun s =>
    (splitPinFor req (patientAt req p).name (teamAt req t).id s).isSome)

inductive ModeTy where
  | whole
  | split
  | var
deriving DecidableEq

/-- The `mode_types` entry for a (patient, team) pair (solver.py lines
210-228): a free boolean when splittable and unpinned, else a constant. -/
def mode_type (req : SolveRequest) (p t : Nat) : ModeTy :=
  if is_splittable (teamAt req t) && !force_whole req p t &&
      !force_split req p t then
    .var
  else if is_splittable (teamAt req t) then
    (if force_whole req p t then .whole else .split)
  else
    .whole

/-- A projected assignment to the decision variables of the CP model:
whole-mode starts, split-mode starts and the free mode selectors. -/
structure Assignment where
  wholeStart : Nat → Nat → Int
  splitStart : Nat → Nat → String → Int
  mode : Nat → Nat → Bool

/-- Value of `whole_mode[p][t]` under an assignment: the constant for forced
modes, the assignment's boolean for a free selector. -/
def modeValue (req : SolveRequest) (a : Assignment) (p t : Nat) : Bool :=
  match mode_type req p t with
  | .whole => true
  | .split => false
  | .var => a.mode p t

-- ---------------------------------------------------------------------------
-- Interval semantics
-- ---------------------------------------------------------------------------

structure Iv where
  start : Int
  size : Int
  present : Bool
deriving DecidableEq

/-- CP-SAT overlap of two (optional) intervals: both present, both of
positive size, and their half-open extents intersect. -/
def overlaps (i j : Iv) : Prop :=
  i.present = true ∧ j.present = true ∧ 0 < i.size ∧ 0 < j.size ∧
    i.start < j.start + j.size ∧ j.start < i.start + i.size

/-- An interval occupies an instant iff it is present and the instant lies in
its half-open extent. -/
def occupies (iv : Iv) (τ : Int) : Prop :=
  iv.present = true ∧ iv.start ≤ τ ∧ τ < iv.start + iv.size

instance (i j : Iv) : Decidable (overlaps i j) := by
  unfold overlaps
  infer_instance

instance (iv : Iv) (τ : Int) : Decidable (occupies iv τ) := by
  unfold occupies
  infer_instance

/-- Whole-mode interval of a pair (lines 234-245): optional with presence
tied to the mode for splittable teams, always present otherwise. -/
def wholeIv (req : SolveRequest) (a : Assignment) (p t : Nat) : Iv :=
  ⟨a.wholeStart p t, durSlots (teamAt req t),
    if is_splittable (teamAt req t) then modeValue req a p t else true⟩

/-- Split-mode interval of a pair and specialty (lines 263-269): size 1,
present exactly when the pair is in split mode.  Only created for
splittable teams. -/
def splitIv (req : SolveRequest) (a : Assignment) (p t : Nat) (s : String) :
    Iv :=
  ⟨a.splitStart p t s, 1, !modeValue req a p t⟩

/-- Duration of a non-auto pinned interval (lines 162-168): default 1 slot;
for a known non-auto team and a non-split pin, `duration // 30`. -/
def naDur (req : SolveRequest) (ps : PinnedSlot) : Int :=
  match nonAutoTeamGet req (pyOr ps.original_team_id ps.team_id) with
  | some tm => if ps.is_split then 1 else Int.fdiv tm.duration 30
  | none => 1

/-- Fixed interval of a modelled non-auto pin (line 172). -/
def naIv (req : SolveRequest) (ps : PinnedSlot) : Iv :=
  ⟨(time_to_index ps.time_slot req.time_slots : Int), naDur req ps, true⟩

-- ---------------------------------------------------------------------------
-- Hard constraints (solver.py lines 230-294, 299-347, 413-472)
-- ---------------------------------------------------------------------------

/-- Variable domains, arrival lower bounds and pin equalities for one
(patient, team) pair (lines 230-279), together with the model-validity
requirement that interval sizes are nonnegative (a negative size makes the
CP model invalid, so no OPTIMAL or FEASIBLE solve exists). -/
def pairConstraint (req : SolveRequest) (a : Assignment) (p t : Nat) : Prop :=
  let tm := teamAt req t
  let d := durSlots tm
  let ws := a.wholeStart p t
  let arr : Int := arrIdx req p
  0 ≤ d ∧
  0 ≤ ws ∧ ws ≤ (horizon req : Int) - d ∧
  (is_splittable tm = true → (modeValue req a p t = true → arr ≤ ws)) ∧
  (is_splittable tm = false → arr ≤ ws) ∧
  OptProp (wholePinFor req (patientAt req p).name tm.id) (fun pin =>
    ws = (time_to_index pin.time_slot req.time_slots : Int)) ∧
  (is_splittable tm = true →
    ∀ s ∈ tm.specialty_ids,
      0 ≤ a.splitStart p t s ∧
      a.splitStart p t s ≤ (horizon req : Int) - 1 ∧
      (modeValue req a p t = false → arr ≤ a.splitStart p t s) ∧
      OptProp (splitPinFor req (patientAt req p).name tm.id s) (fun pin =>
        a.splitStart p t s = (time_to_index pin.time_slot req.time_slots : Int)))

/-- The interval list of one patient for the per-patient no-overlap
constraint (lines 284-294): whole intervals, split intervals (one per
distinct specialty, dict iteration order), then the patient's modelled
non-auto intervals (line 159 assigns them to the dict index of the name). -/
def patientIvs (req : SolveRequest) (a : Assignment) (p : Nat) : List Iv :=
  ((List.range (numTeams req)).flatMap (fun t =>
    wholeIv req a p t ::
      (if is_splittable (teamAt req t) then
        ((teamAt req t).specialty_ids.eraseDups).map (splitIv req a p t)
       else []))) ++
  ((nonAutoModelPins req).filter
    (fun ps => patientIdxOf req ps.patient_name == some p)).map (naIv req)

/-- Whole-mode intervals of one team across patients (lines 299-309). -/
def teamWholeIvs (req : SolveRequest) (a : Assignment) (t : Nat) : List Iv :=
  (List.range (numPatients req)).map (fun p => wholeIv req a p t)

/-- Per-team resource constraint (lines 310-316): only added when the list
has more than one interval; no-overlap for capacity 1, else a cumulative
constraint with unit demands. -/
def teamConstraint (req : SolveRequest) (a : Assignment) (t : Nat) : Prop :=
  2 ≤ numPatients req →
    (if (teamAt req t).capacity = 1 then
      (teamWholeIvs req a t).Pairwise (fun i j => ¬ overlaps i j)
     else
      ∀ τ ∈ List.range (horizon req),
        (((teamWholeIvs req a t).countP
          (fun iv => decide (occupies iv (τ : Int)))) : Int) ≤
          (teamAt req t).capacity)

/-- Auto-team intervals registered under a specialty (lines 325-337): for
each team, one pass per occurrence of the specialty in its list, and per
patient the whole interval then, for splittable teams, the split interval
of that specialty. -/
def specIvsAuto (req : SolveRequest) (a : Assignment) (s : String) : List Iv :=
  (List.range (numTeams req)).flatMap (fun t =>
    (teamAt req t).specialty_ids.flatMap (fun s2 =>
      if s2 = s then
        (List.range (numPatients req)).flatMap (fun p =>
          wholeIv req a p t ::
            (if is_splittable (teamAt req t) then [splitIv req a p t s]
             else []))
      else []))

/-- Non-auto intervals registered under a specialty (lines 176-185). -/
def specIvsNonAuto (req : SolveRequest) (s : String) : List Iv :=
  (nonAutoModelPins req).flatMap (fun ps =>
    if ps.is_split && optTruthy ps.split_specialty_id then
      (if ps.split_specialty_id = some s then [naIv req ps] else [])
    else
      match nonAutoTeamGet req (pyOr ps.original_team_id ps.team_id) with
      | some tm =>
        tm.specialty_ids.flatMap (fun s2 => if s2 = s then [naIv req ps] else [])
      | none => [])

/-- A superset (with multiplicity) of the keys of `spec_intervals`; for a
string that is not a real key both interval lists are empty, so
quantifying over the superset adds only vacuous constraints, and a
repeated key repeats a constraint. -/
def specKeys (req : SolveRequest) : List String :=
  req.teams.flatMap (·.specialty_ids) ++
    req.pinned_slots.filterMap (·.split_specialty_id)

/-- Minimum of a list of integers (0 for the empty list, which the model
never builds). -/
def listMinI : List Int → Int
  | [] => 0
  | x :: xs => xs.foldl min x

/-- Effective start of a pair (lines 413-455): the whole start in whole
mode, the minimum split start in split mode.  The source's three encodings
(direct alias, AddMinEquality, and the conditional bound-plus-selector
idiom) all determine exactly this value. -/
def effStart (req : SolveRequest) (a : Assignment) (p t : Nat) : Int :=
  if modeValue req a p t then a.wholeStart p t
  else listMinI (((teamAt req t).specialty_ids).map (a.splitStart p t))

/-- Arrival touchpoint (lines 461-472): some team's effective start equals
the arrival index.  The boolean-selector encoding of the source is
satisfiable exactly when such a team exists. -/
def touchpoint (req : SolveRequest) (a : Assignment) (p : Nat) : Prop :=
  ∃ t ∈ List.range (numTeams req),
    effStart req a p t = (arrIdx req p : Int)

/-- The complete hard-constraint set of the CP model, projected onto the
decision variables.  The objective terms (span, priority delays, makespan)
introduce only auxiliary variables whose constraints are satisfiable for
every assignment satisfying this predicate, so OPTIMAL and FEASIBLE solves
return exactly assignments in this set. -/
def Satisfies (req : SolveRequest) (a : Assignment) : Prop :=
  (∀ p ∈ List.range (numPatients req), ∀ t ∈ List.range (numTeams req),
    pairConstraint req a p t) ∧
  (∀ p ∈ List.range (numPatients req),
    (patientIvs req a p).Pairwise (fun i j => ¬ overlaps i j)) ∧
  (∀ t ∈ List.range (numTeams req), teamConstraint req a t) ∧
  (∀ s ∈ specKeys req,
    (specIvsAuto req a s ++ specIvsNonAuto req s).Pairwise
      (fun i j => ¬ overlaps i j)) ∧
  (∀ p ∈ List.range (numPatients req), touchpoint req a p) ∧
  (∀ ps ∈ nonAutoModelPins req, 0 ≤ naDur req ps)

instance (req : SolveRequest) (a : Assignment) (p t : Nat) :
    Decidable (pairConstraint req a p t) := by
  unfold pairConstraint
  infer_instance

instance (req : SolveRequest) (a : Assignment) (t : Nat) :
    Decidable (teamConstraint req a t) := by
  unfold teamConstraint
  infer_instance

instance (req : SolveRequest) (a : Assignment) (p : Nat) :
    Decidable (touchpoint req a p) := by
  unfold touchpoint
  infer_instance

instance (req : SolveRequest) (a : Assignment) :
    Decidable (Satisfies req a) := by
  unfold Satisfies
  infer_instance

-- ---------------------------------------------------------------------------
-- Normalization success (the time lookups the source performs)
-- ---------------------------------------------------------------------------

/-- All `time_to_index` calls performed during model construction succeed:
arrivals (line 192), modelled non-auto pin times (line 160), matched whole
pin times (line 255) and matched split pin times (line 276).  When one
fails, `list.index` raises ValueError and `solve_schedule` propagates it. -/
def normalizeOk (req : SolveRequest) : Prop :=
  (∀ ps ∈ nonAutoModelPins req, ps.time_slot ∈ req.time_slots) ∧
  (∀ p ∈ List.range (numPatients req),
    (patientAt req p).arrival_time ∈ req.time_slots) ∧
  (∀ p ∈ List.range (numPatients req), ∀ t ∈ List.range (numTeams req),
    OptProp (wholePinFor req (patientAt req p).name (teamAt req t).id)
      (fun pin => pin.time_slot ∈ req.time_slots) ∧
    ∀ s ∈ (teamAt req t).specialty_ids,
      OptProp (splitPinFor req (patientAt req p).name (teamAt req t).id s)
        (fun pin => pin.time_slot ∈ req.time_slots))

instance (req : SolveRequest) : Decidable (normalizeOk req) := by
  unfold normalizeOk
  infer_instance

-- ---------------------------------------------------------------------------
-- Solution extraction (solver.py lines 573-676)
-- ---------------------------------------------------------------------------

/-- Whole-mode output slot of a pair (lines 606-627).  The `pinned` flag is
set iff some request pin has this patient, an effective id (`original or
team_id`, Python truthiness) equal to the team id, and `is_split` false. -/
def wholeSlot (req : SolveRequest) (a : Assignment) (p t : Nat) :
    SolveResultSlot :=
  ⟨(patientAt req p).name,
   index_to_time (a.wholeStart p t).toNat req.time_slots,
   (teamAt req t).id,
   req.pinned_slots.any (fun ps =>
     ps.patient_name == (patientAt req p).name &&
       pyOr ps.original_team_id ps.team_id == (teamAt req t).id &&
       !ps.is_split),
   false, none, none⟩

/-- Split-mode output slot of a pair and specialty (lines 630-656). -/
def splitSlot (req : SolveRequest) (a : Assignment) (p t : Nat) (s : String) :
    SolveResultSlot :=
  ⟨(patientAt req p).name,
   index_to_time (a.splitStart p t s).toNat req.time_slots,
   "split_" ++ (teamAt req t).id ++ "_" ++ s,
   req.pinned_slots.any (fun ps =>
     ps.patient_name == (patientAt req p).name && ps.is_split &&
       ps.original_team_id == some (teamAt req t).id &&
       ps.split_specialty_id == some s),
   true, some (teamAt req t).id, some s⟩

/-- Slots emitted for one (patient, team) pair (lines 595-656): the whole
slot in whole mode, else one split slot per occurrence of a specialty in
the team's list (the `spec in split_vars` guard holds exactly for
splittable teams, whose dict carries every specialty). -/
def pairSlots (req : SolveRequest) (a : Assignment) (p t : Nat) :
    List SolveResultSlot :=
  if modeValue req a p t then [wholeSlot req a p t]
  else
    (teamAt req t).specialty_ids.flatMap (fun s =>
      if is_splittable (teamAt req t) then [splitSlot req a p t s] else [])

def autoSlots (req : SolveRequest) (a : Assignment) : List SolveResultSlot :=
  (List.range (numPatients req)).flatMap (fun p =>
    (List.range (numTeams req)).flatMap (fun t => pairSlots req a p t))

/-- Conversion of a pinned slot to a result slot, used verbatim both by the
non-auto append (lines 665-673) and by the fast path (lines 681-692). -/
def pinSlotResult (ps : PinnedSlot) : SolveResultSlot :=
  ⟨ps.patient_name, ps.time_slot, ps.team_id, true, ps.is_split,
   ps.original_team_id, ps.split_specialty_id⟩

/-- The non-auto append loop (lines 659-674): every request pin whose
effective id is not an auto team id is appended, marked pinned, unless the
`(patient, time)` key was already emitted. -/
def appendNonAuto (req : SolveRequest) :
    List PinnedSlot → List (String × String) → List SolveResultSlot
  | [], _ => []
  | ps :: rest, emitted =>
    if (autoIds req).contains (pyOr ps.original_team_id ps.team_id) then
      appendNonAuto req rest emitted
    else if (ps.patient_name, ps.time_slot) ∈ emitted then
      appendNonAuto req rest emitted
    else
      pinSlotResult ps ::
        appendNonAuto req rest ((ps.patient_name, ps.time_slot) :: emitted)

/-- The `_extract_solution` result (lines 573-676): auto slots in pair
order, then the surviving non-auto pins. -/
def extractSolution (req : SolveRequest) (a : Assignment) :
    List SolveResultSlot :=
  let auto := autoSlots req a
  auto ++ appendNonAuto req req.pinned_slots
    (auto.map (fun s => (s.patient_name, s.time_slot)))

/-- The `_pinned_slots_to_result` conversion (lines 679-692). -/
def pinned_slots_to_result (pins : List PinnedSlot) : List SolveResultSlot :=
  pins.map pinSlotResult

-- ---------------------------------------------------------------------------
-- solve_schedule up to the CP-SAT call (lines 94-133, 156-185, 106-110)
-- ---------------------------------------------------------------------------

/-- Outcome of `solve_schedule` before the CP-SAT call: the empty-input
fast path returns a response directly; otherwise the model is built (from
the request) and handed to the solver. -/
inductive SolveOutcome where
  | fast (resp : SolveResponse)
  | model (req : SolveRequest)
deriving DecidableEq

/-- Deterministic prefix of `solve_schedule`: `none` models an uncaught
ValueError escaping from `time_to_index` (the function raises; no
SolveResponse is produced). -/
def solvePrepare (req : SolveRequest) : Option SolveOutcome :=
  if numPatients req = 0 ∨ numTeams req = 0 then
    some (.fast ⟨"OPTIMAL", pinned_slots_to_result req.pinned_slots⟩)
  else if normalizeOk req then
    some (.model req)
  else
    none

/-- Response returned for an OPTIMAL or FEASIBLE solver status (lines
559-570), given the satisfying assignment the solver found. -/
def solvedResponse (req : SolveRequest) (a : Assignment) (status : String) :
    SolveResponse :=
  ⟨status, extractSolution req a⟩

-- ---------------------------------------------------------------------------
-- Claim formalizations (statements of the claims as written, for
-- counterexamples) and shared concrete instances
-- ---------------------------------------------------------------------------

-- ---------------------------------------------------------------------------
-- Shared concrete instances for witnesses and counterexamples
-- ---------------------------------------------------------------------------

def patA : SolvePatient := ⟨"A", "8:00"⟩

def patA830 : SolvePatient := ⟨"A", "8:30"⟩

def teamT1 : SolveTeam := ⟨"T1", "Team 1", ["S1"], 30, 0, true, 1⟩

def teamTX : SolveTeam := ⟨"TX", "Team X", ["S2"], 30, 0, false, 1⟩

def teamT2 : SolveTeam := ⟨"T2", "Team 2", ["S1", "S2"], 60, 0, true, 1⟩

def teamT45 : SolveTeam := ⟨"T1", "Team 1", ["S1"], 45, 0, true, 1⟩

def asgZero : Assignment := ⟨fun _ _ => 0, fun _ _ _ => 0, fun _ _ => true⟩

def asgOne : Assignment := ⟨fun _ _ => 1, fun _ _ _ => 0, fun _ _ => true⟩

def asgSplit : Assignment :=
  ⟨fun _ _ => 0, fun _ _ s => if s = "S1" then 0 else 1, fun _ _ => false⟩

/-- Classification rule as claim C3 states it: the `original_team_id`
decides when set, the `team_id` only when no original is set. -/
def specWordsNonAuto (req : SolveRequest) (ps : PinnedSlot) : Bool :=
  match ps.original_team_id with
  | some o => (nonAutoIds req).contains o
  | none => (nonAutoIds req).contains ps.team_id

def pinC3 : PinnedSlot := ⟨"A", "8:00", "TX", false, some "T1", none⟩

def reqC3 : SolveRequest := ⟨[patA], [teamT1, teamTX], [], [pinC3], defaultTimeSlots⟩

/-- The mode-selector rule as claim C4 states it: a free variable exactly
when splittable and unpinned; constant whole when a whole pin exists;
constant split when any split pin exists; constant whole when the team
covers fewer than two specialties. -/
def claimC4ModeRule (req : SolveRequest) (p t : Nat) : Prop :=
  (mode_type req p t = .var ↔
    (is_splittable (teamAt req t) = true ∧ force_whole req p t = false ∧
      force_split req p t = false)) ∧
  (force_whole req p t = true → mode_type req p t = .whole) ∧
  (force_split req p t = true → mode_type req p t = .split) ∧
  (is_splittable (teamAt req t) = false → mode_type req p t = .whole)

instance (req : SolveRequest) (p t : Nat) : Decidable (claimC4ModeRule req p t) := by
  unfold claimC4ModeRule
  infer_instance

def pinC4 : PinnedSlot := ⟨"A", "8:00", "split_T1_S1", true, some "T1", some "S1"⟩

def reqC4 : SolveRequest := ⟨[patA], [teamT1], [], [pinC4], defaultTimeSlots⟩

def reqC5 : SolveRequest :=
  ⟨[], [teamT1], [], [⟨"A", "9:00", "TX", true, some "Q", some "S9"⟩],
    defaultTimeSlots⟩

def reqC6 : SolveRequest := ⟨[patA], [teamT45], [], [], defaultTimeSlots⟩

def reqC10 : SolveRequest := ⟨[⟨"A", "7:13"⟩], [teamT1], [], [], defaultTimeSlots⟩


-- ---------------------------------------------------------------------------
-- Emitted start indices (the slot times of the auto-emitted slots, as
-- indices, used to state the arrival properties)
-- ---------------------------------------------------------------------------

/-- Start indices behind the slots a pair emits: the whole start in whole
mode, one split start per specialty occurrence in split mode.  Mirrors
`pairSlots`, which renders exactly these indices as time labels. -/
def pairStartIdxs (req : SolveRequest) (a : Assignment) (p t : Nat) :
    List Int :=
  if modeValue req a p t then [a.wholeStart p t]
  else
    (teamAt req t).specialty_ids.flatMap (fun s =>
      if is_splittable (teamAt req t) then [a.splitStart p t s] else [])

def autoStartIdxs (req : SolveRequest) (a : Assignment) (p : Nat) : List Int :=
  (List.range (numTeams req)).flatMap (fun t => pairStartIdxs req a p t)

-- ---------------------------------------------------------------------------
-- Formalized claim statements (used to refute claims as written)
-- ---------------------------------------------------------------------------

/-- Claim C1's notion of a pin appearing in the output: some slot is marked
pinned and carries the pin's time_slot, team_id and split_specialty_id. -/
def appearsAsPinned (ps : PinnedSlot) (slots : List SolveResultSlot) : Prop :=
  ∃ s ∈ slots, s.pinned = true ∧ s.time_slot = ps.time_slot ∧
    s.team_id = ps.team_id ∧ s.split_specialty_id = ps.split_specialty_id

instance (ps : PinnedSlot) (slots : List SolveResultSlot) :
    Decidable (appearsAsPinned ps slots) := by
  unfold appearsAsPinned
  infer_instance

/-- Claim C1 as stated: every request pin appears in the returned slots. -/
def claimC1 (req : SolveRequest) (slots : List SolveResultSlot) : Prop :=
  ∀ ps ∈ req.pinned_slots, appearsAsPinned ps slots

instance (req : SolveRequest) (slots : List SolveResultSlot) :
    Decidable (claimC1 req slots) := by
  unfold claimC1
  infer_instance

/-- Claim C2 as stated: for every patient, some effective start equals the
arrival index, no returned slot of the patient has a time index before the
arrival index, and some returned slot of the patient attains it (together:
the minimum emitted time index equals the arrival index). -/
def claimC2 (req : SolveRequest) (a : Assignment)
    (slots : List SolveResultSlot) : Prop :=
  ∀ p ∈ List.range (numPatients req),
    (∃ t ∈ List.range (numTeams req),
      effStart req a p t = (arrIdx req p : Int)) ∧
    (∀ s ∈ slots, s.patient_name = (patientAt req p).name →
      (arrIdx req p : Int) ≤ (time_to_index s.time_slot req.time_slots : Int)) ∧
    (∃ s ∈ slots, s.patient_name = (patientAt req p).name ∧
      (time_to_index s.time_slot req.time_slots : Int) = (arrIdx req p : Int))

instance (req : SolveRequest) (a : Assignment) (slots : List SolveResultSlot) :
    Decidable (claimC2 req a slots) := by
  unfold claimC2
  infer_instance

/-- Claim C7 as stated: a pin whose patient is unknown contributes no
non-auto model interval and appears nowhere in the returned slots. -/
def claimC7 (req : SolveRequest) (slots : List SolveResultSlot) : Prop :=
  ∀ ps ∈ req.pinned_slots,
    (patientNames req).contains ps.patient_name = false →
      ps ∉ nonAutoModelPins req ∧
      ∀ s ∈ slots,
        ¬ (s.patient_name = ps.patient_name ∧ s.time_slot = ps.time_slot ∧
            s.team_id = ps.team_id)

instance (req : SolveRequest) (slots : List SolveResultSlot) :
    Decidable (claimC7 req slots) := by
  unfold claimC7
  infer_instance

-- Further concrete instances

def pinC1 : PinnedSlot := ⟨"A", "8:00", "bogus", false, some "T1", none⟩

def reqC1 : SolveRequest := ⟨[patA], [teamT1], [], [pinC1], defaultTimeSlots⟩

def pinC2a : PinnedSlot := ⟨"A", "8:30", "T1", false, none, none⟩

def pinC2b : PinnedSlot := ⟨"A", "8:00", "TX", false, none, none⟩

def reqC2 : SolveRequest :=
  ⟨[patA830], [teamT1, teamTX], [], [pinC2a, pinC2b], defaultTimeSlots⟩

def pinC7 : PinnedSlot := ⟨"ghost", "8:00", "TX", false, none, none⟩

def reqC7 : SolveRequest := ⟨[patA], [teamT1, teamTX], [], [pinC7], defaultTimeSlots⟩

def reqC8 : SolveRequest := ⟨[patA], [teamT2], [], [], defaultTimeSlots⟩

def reqC9 : SolveRequest := ⟨[patA], [teamT1], [], [], defaultTimeSlots⟩

-- ---------------------------------------------------------------------------
-- General helper lemmas
-- ---------------------------------------------------------------------------

theorem pairwise_rel_of_duplicate {α : Type} {R : α → α → Prop} {l : List α}
    {x : α} (hp : l.Pairwise R) (hd : l.Duplicate x) : R x x := by
  have hs : List.Sublist [x, x] l := List.duplicate_iff_sublist.mp hd
  have h2 := hp.sublist hs
  cases h2 with
  | cons h3 _ => exact h3 x (by simp)

theorem sublist_flatMap {α β : Type} (f : α → List β) {l1 l2 : List α}
    (h : List.Sublist l1 l2) :
    List.Sublist (l1.flatMap f) (l2.flatMap f) := by
  induction h with
  | slnil => simp
  | cons a h ih => simpa using ih.trans (List.sublist_append_right _ _)
  | cons₂ a h ih => simpa using ih.append_left (f a)

theorem contains_iff_mem {l : List String} {x : String} :
    l.contains x = true ↔ x ∈ l := by
  simp [List.contains_eq_any_beq]

theorem exists_patient_of_name_contains {req : SolveRequest} {n : String}
    (h : (patientNames req).contains n = true) :
    ∃ p ∈ List.range (numPatients req), (patientAt req p).name = n := by
  rw [contains_iff_mem] at h
  unfold patientNames at h
  obtain ⟨pat, hpat, hname⟩ := List.mem_map.mp h
  obtain ⟨i, hi, hget⟩ := List.mem_iff_getElem.mp hpat
  refine ⟨i, List.mem_range.mpr hi, ?_⟩
  unfold patientAt
  rw [List.getD_eq_getElem _ _ hi, hget, hname]

theorem exists_team_of_id_contains {req : SolveRequest} {tid : String}
    (h : (autoIds req).contains tid = true) :
    ∃ t ∈ List.range (numTeams req), (teamAt req t).id = tid := by
  rw [contains_iff_mem] at h
  unfold autoIds at h
  obtain ⟨tm, htm, hid⟩ := List.mem_map.mp h
  obtain ⟨i, hi, hget⟩ := List.mem_iff_getElem.mp htm
  refine ⟨i, List.mem_range.mpr hi, ?_⟩
  unfold teamAt
  rw [List.getD_eq_getElem _ _ hi, hget, hid]

theorem patientAt_name_contains {req : SolveRequest} {p : Nat}
    (hp : p ∈ List.range (numPatients req)) :
    (patientNames req).contains (patientAt req p).name = true := by
  have hlt := List.mem_range.mp hp
  rw [contains_iff_mem]
  unfold patientNames patientAt
  rw [List.getD_eq_getElem _ _ hlt]
  exact List.mem_map.mpr ⟨_, List.getElem_mem _, rfl⟩

theorem index_time_roundtrip {l : List String} {x : String} (h : x ∈ l) :
    index_to_time (time_to_index x l) l = x := by
  unfold index_to_time time_to_index
  rw [List.getD_eq_getElem l _ (List.indexOf_lt_length.mpr h)]
  exact List.getElem_indexOf _

-- Mode-selection helper lemmas

theorem mode_type_whole_of_not_splittable {req : SolveRequest} {p t : Nat}
    (h : is_splittable (teamAt req t) = false) : mode_type req p t = .whole := by
  unfold mode_type
  rw [h]
  simp

theorem mode_type_whole_of_force_whole {req : SolveRequest} {p t : Nat}
    (h : force_whole req p t = true) : mode_type req p t = .whole := by
  unfold mode_type
  rw [h]
  cases is_splittable (teamAt req t) <;> simp

theorem mode_type_split_intro {req : SolveRequest} {p t : Nat}
    (h1 : is_splittable (teamAt req t) = true) (h2 : force_whole req p t = false)
    (h3 : force_split req p t = true) : mode_type req p t = .split := by
  unfold mode_type
  rw [h1, h2, h3]
  simp

theorem modeValue_of_whole {req : SolveRequest} {p t : Nat}
    (h : mode_type req p t = .whole) (a : Assignment) :
    modeValue req a p t = true := by
  unfold modeValue
  rw [h]

theorem modeValue_of_split {req : SolveRequest} {p t : Nat}
    (h : mode_type req p t = .split) (a : Assignment) :
    modeValue req a p t = false := by
  unfold modeValue
  rw [h]

theorem splittable_of_modeValue_false {req : SolveRequest} {a : Assignment}
    {p t : Nat} (h : modeValue req a p t = false) :
    is_splittable (teamAt req t) = true := by
  cases hsp : is_splittable (teamAt req t) with
  | false =>
    rw [modeValue_of_whole (mode_type_whole_of_not_splittable hsp) a] at h
    exact absurd h (by simp)
  | true => rfl

-- Extraction membership helpers

theorem pairSlots_mem_extract {req : SolveRequest} {a : Assignment} {p t : Nat}
    (hp : p ∈ List.range (numPatients req)) (ht : t ∈ List.range (numTeams req))
    {s : SolveResultSlot} (hs : s ∈ pairSlots req a p t) :
    s ∈ extractSolution req a := by
  unfold extractSolution
  exact List.mem_append_left _
    (List.mem_flatMap.mpr ⟨p, hp, List.mem_flatMap.mpr ⟨t, ht, hs⟩⟩)

theorem solvePrepare_model_elim {req m : SolveRequest}
    (h : solvePrepare req = some (.model m)) :
    m = req ∧ normalizeOk req ∧ numPatients req ≠ 0 ∧ numTeams req ≠ 0 := by
  unfold solvePrepare at h
  split at h
  · simp at h
  · split at h
    · rename_i h1 h2
      refine ⟨by simpa using h.symm, h2, ?_, ?_⟩ <;> omega
    · simp at h

-- ---------------------------------------------------------------------------
-- Claim C3: classification of non-auto pins
-- ---------------------------------------------------------------------------

/-- Claim C3 is false: a pin whose `original_team_id` refers to the auto
team T1 but whose `team_id` is the non-auto team TX is classified as
non-auto by the source (line 123 checks `team_id` first, disjunctively),
while the claim says such a pin is not non-auto. -/
theorem C3_counterexample :
    isNonAutoPin reqC3 pinC3 = true ∧ specWordsNonAuto reqC3 pinC3 = false := by
  decide

/-- Claim C3 amended: a pin is classified non-auto iff its `team_id` is a
non-auto team id, or its `original_team_id` is set, nonempty and a
non-auto team id — the two conditions are disjunctive, so a non-auto
`team_id` wins even when `original_team_id` refers to an auto team. -/
theorem C3_classification (req : SolveRequest) (ps : PinnedSlot) :
    isNonAutoPin req ps = true ↔
      (ps.team_id ∈ nonAutoIds req ∨
        ∃ o, ps.original_team_id = some o ∧ o ≠ "" ∧ o ∈ nonAutoIds req) := by
  unfold isNonAutoPin optTruthy
  cases ho : ps.original_team_id with
  | none => simp [contains_iff_mem]
  | some o => by_cases ho2 : o = "" <;> simp [contains_iff_mem, ho2]

-- ---------------------------------------------------------------------------
-- Claim C4: the mode selector
-- ---------------------------------------------------------------------------

/-- Claim C4 is false: for the one-specialty team T1 with a split pin for
the pair (A, T1), the source forces the mode to the constant 1 (whole) —
the non-splittable branch wins — while the claim demands the constant 0
(split) whenever any split pin exists for the pair. -/
theorem C4_counterexample :
    ¬ claimC4ModeRule reqC4 0 0 ∧ force_split reqC4 0 0 = true ∧
      mode_type reqC4 0 0 = .whole := by
  decide

/-- Claim C4 amended: the selector is a free boolean exactly when the team
is splittable and neither pin kind exists for the pair; it is the constant
whole when the team is non-splittable (regardless of pins) or a whole pin
exists, and the constant split only for a splittable team with a split pin
and no whole pin (a whole pin wins over a split pin). -/
theorem C4_mode_selector (req : SolveRequest) (p t : Nat) :
    (mode_type req p t = .var ↔
      (is_splittable (teamAt req t) = true ∧ force_whole req p t = false ∧
        force_split req p t = false)) ∧
    (mode_type req p t = .whole ↔
      (is_splittable (teamAt req t) = false ∨ force_whole req p t = true)) ∧
    (mode_type req p t = .split ↔
      (is_splittable (teamAt req t) = true ∧ force_whole req p t = false ∧
        force_split req p t = true)) := by
  unfold mode_type
  cases h1 : is_splittable (teamAt req t) <;> cases h2 : force_whole req p t <;>
    cases h3 : force_split req p t <;> simp

-- ---------------------------------------------------------------------------
-- Claim C5: the empty-input fast path
-- ---------------------------------------------------------------------------

/-- Claim C5 confirmed: with zero patients or zero auto teams,
`solve_schedule` skips the solver and returns OPTIMAL with exactly the
request's pinned slots converted in order, every field copied unchanged
and `pinned` set. -/
theorem C5_fast_path (req : SolveRequest)
    (h : numPatients req = 0 ∨ numTeams req = 0) :
    solvePrepare req =
      some (.fast ⟨"OPTIMAL", pinned_slots_to_result req.pinned_slots⟩) ∧
    ∀ ps ∈ req.pinned_slots, pinSlotResult ps =
      ⟨ps.patient_name, ps.time_slot, ps.team_id, true, ps.is_split,
        ps.original_team_id, ps.split_specialty_id⟩ := by
  refine ⟨?_, fun ps _ => rfl⟩
  unfold solvePrepare
  rw [if_pos h]

theorem C5_fast_path_witness :
    solvePrepare reqC5 =
      some (.fast ⟨"OPTIMAL", pinned_slots_to_result reqC5.pinned_slots⟩) ∧
    ∀ ps ∈ reqC5.pinned_slots, pinSlotResult ps =
      ⟨ps.patient_name, ps.time_slot, ps.team_id, true, ps.is_split,
        ps.original_team_id, ps.split_specialty_id⟩ :=
  C5_fast_path reqC5 (Or.inl (by decide))

-- ---------------------------------------------------------------------------
-- Claim C6: duration validation
-- ---------------------------------------------------------------------------

/-- Claim C6 is false: a request whose team duration 45 is not a positive
multiple of the 30-minute granularity is not rejected — it reaches the
CP-SAT stage, and the slot count used is the floor quotient 1. -/
theorem C6_counterexample :
    solvePrepare reqC6 = some (.model reqC6) ∧
    (teamAt reqC6 0).duration = 45 ∧
    ¬ (teamAt reqC6 0).duration % 30 = 0 ∧
    durSlots (teamAt reqC6 0) = 1 := by
  decide

/-- Claim C6 amended: no pre-solve duration validation exists.  Whenever
the time-label lookups succeed (`normalizeOk`, a condition that never
inspects durations), the request reaches the CP-SAT stage regardless of
team durations, and the per-team slot count used by the model is the floor
division `duration // 30` with a hardcoded 30, silently truncating
non-multiples instead of rejecting them. -/
theorem C6_no_duration_validation (req : SolveRequest)
    (h1 : numPatients req ≠ 0) (h2 : numTeams req ≠ 0) (h3 : normalizeOk req) :
    solvePrepare req = some (.model req) ∧
    ∀ t ∈ List.range (numTeams req),
      durSlots (teamAt req t) = Int.fdiv (teamAt req t).duration 30 := by
  refine ⟨?_, fun t _ => rfl⟩
  unfold solvePrepare
  rw [if_neg (by push_neg; exact ⟨h1, h2⟩), if_pos h3]

theorem C6_no_duration_validation_witness :
    solvePrepare reqC6 = some (.model reqC6) ∧
    ∀ t ∈ List.range (numTeams reqC6),
      durSlots (teamAt reqC6 t) = Int.fdiv (teamAt reqC6 t).duration 30 :=
  C6_no_duration_validation reqC6 (by decide) (by decide) (by decide)

-- ---------------------------------------------------------------------------
-- Claim C10: unknown time labels raise, they do not become ERROR responses
-- ---------------------------------------------------------------------------

/-- Claim C10 confirmed: with at least one patient and one auto team, when
some performed time lookup fails — a patient arrival or a modelled pinned
slot time outside the grid, exactly the conjuncts of `normalizeOk` —
`solve_schedule` raises the ValueError from `list.index` (modelled as
`none`) instead of returning any SolveResponse, ERROR or otherwise. -/
theorem C10_bad_time_label_raises (req : SolveRequest)
    (h1 : numPatients req ≠ 0) (h2 : numTeams req ≠ 0)
    (h3 : ¬ normalizeOk req) :
    solvePrepare req = none := by
  unfold solvePrepare
  rw [if_neg (by push_neg; exact ⟨h1, h2⟩), if_neg h3]

theorem C10_bad_time_label_raises_witness : solvePrepare reqC10 = none :=
  C10_bad_time_label_raises reqC10 (by decide) (by decide) (by decide)

-- ---------------------------------------------------------------------------
-- Minimum-of-list lemmas
-- ---------------------------------------------------------------------------

theorem foldl_min_mem (x : Int) (xs : List Int) : xs.foldl min x ∈ x :: xs := by
  induction xs generalizing x with
  | nil => simp
  | cons y ys ih =>
    simp only [List.foldl_cons]
    rcases List.mem_cons.mp (ih (min x y)) with h1 | h1
    · rcases min_choice x y with h2 | h2
      · rw [h1, h2]
        exact List.mem_cons_self _ _
      · rw [h1, h2]
        exact List.mem_cons_of_mem _ (List.mem_cons_self _ _)
    · exact List.mem_cons_of_mem _ (List.mem_cons_of_mem _ h1)

theorem foldl_min_le {x : Int} {xs : List Int} :
    ∀ y ∈ x :: xs, xs.foldl min x ≤ y := by
  induction xs generalizing x with
  | nil =>
    intro y hy
    simp only [List.mem_singleton] at hy
    simp [hy]
  | cons z zs ih =>
    intro y hy
    simp only [List.foldl_cons]
    rcases List.mem_cons.mp hy with h1 | h1
    · subst h1
      exact le_trans (ih _ (List.mem_cons_self _ _)) (min_le_left _ _)
    · rcases List.mem_cons.mp h1 with h2 | h2
      · subst h2
        exact le_trans (ih _ (List.mem_cons_self _ _)) (min_le_right _ _)
      · exact ih y (List.mem_cons_of_mem _ h2)

theorem listMinI_mem {l : List Int} (h : l ≠ []) : listMinI l ∈ l := by
  cases l with
  | nil => exact absurd rfl h
  | cons x xs => exact foldl_min_mem x xs

theorem listMinI_le {l : List Int} {y : Int} (h : y ∈ l) : listMinI l ≤ y := by
  cases l with
  | nil => simp at h
  | cons x xs => exact foldl_min_le y h

-- ---------------------------------------------------------------------------
-- Extraction congruence: the output depends on the assignment only through
-- the mode values and the starts the active mode reads
-- ---------------------------------------------------------------------------

theorem pairSlots_congr {req : SolveRequest} {a b : Assignment} {p t : Nat}
    (hmode : modeValue req a p t = modeValue req b p t)
    (hws : modeValue req b p t = true → a.wholeStart p t = b.wholeStart p t)
    (hss : modeValue req b p t = false →
      ∀ s ∈ (teamAt req t).specialty_ids,
        a.splitStart p t s = b.splitStart p t s) :
    pairSlots req a p t = pairSlots req b p t := by
  unfold pairSlots
  rw [hmode]
  cases hm : modeValue req b p t with
  | true =>
    rw [if_pos rfl, if_pos rfl]
    unfold wholeSlot
    rw [hws hm]
  | false =>
    rw [if_neg (by simp), if_neg (by simp)]
    refine List.flatMap_congr (fun s hs => ?_)
    cases hsp : is_splittable (teamAt req t) with
    | false => rw [if_neg (by simp), if_neg (by simp)]
    | true =>
      rw [if_pos rfl, if_pos rfl]
      unfold splitSlot
      rw [hss hm s hs]

theorem extract_congr {req : SolveRequest} {a b : Assignment}
    (h : ∀ p ∈ List.range (numPatients req), ∀ t ∈ List.range (numTeams req),
      modeValue req a p t = modeValue req b p t ∧
      (modeValue req b p t = true → a.wholeStart p t = b.wholeStart p t) ∧
      (modeValue req b p t = false →
        ∀ s ∈ (teamAt req t).specialty_ids,
          a.splitStart p t s = b.splitStart p t s)) :
    extractSolution req a = extractSolution req b := by
  have hauto : autoSlots req a = autoSlots req b := by
    unfold autoSlots
    refine List.flatMap_congr (fun p hp => List.flatMap_congr (fun t ht => ?_))
    obtain ⟨h1, h2, h3⟩ := h p hp t ht
    exact pairSlots_congr h1 h2 h3
  unfold extractSolution
  rw [hauto]

-- ---------------------------------------------------------------------------
-- Claim C9: every (patient, auto team) pair emits at least one slot
-- ---------------------------------------------------------------------------

/-- Claim C9 confirmed: for every (patient, auto team) pair the extraction
emits at least one slot (the whole slot in whole mode, one slot per
covered specialty in split mode), and each of these slots is in the
returned slot list — no pair is ever omitted. -/
theorem C9_every_pair_emits (req : SolveRequest) (a : Assignment)
    (_hprep : solvePrepare req = some (.model req)) (_hsat : Satisfies req a)
    (p t : Nat) (hp : p ∈ List.range (numPatients req))
    (ht : t ∈ List.range (numTeams req)) :
    pairSlots req a p t ≠ [] ∧
    ∀ s ∈ pairSlots req a p t, s ∈ extractSolution req a := by
  refine ⟨?_, fun s hs => pairSlots_mem_extract hp ht hs⟩
  unfold pairSlots
  cases hm : modeValue req a p t with
  | true => simp
  | false =>
    have hsp := splittable_of_modeValue_false hm
    rw [if_neg (by simp)]
    cases hspec : (teamAt req t).specialty_ids with
    | nil =>
      rw [is_splittable, hspec] at hsp
      simp at hsp
    | cons x rest => simp [hsp, hspec]

theorem C9_every_pair_emits_witness :
    pairSlots reqC9 asgZero 0 0 ≠ [] ∧
    ∀ s ∈ pairSlots reqC9 asgZero 0 0, s ∈ extractSolution reqC9 asgZero :=
  C9_every_pair_emits reqC9 asgZero (by decide) (by decide) 0 0 (by decide)
    (by decide)

-- ---------------------------------------------------------------------------
-- Claim C1, counterexample
-- ---------------------------------------------------------------------------

/-- Claim C1 is false: in `reqC1`, the whole pin carries `team_id` "bogus"
with `original_team_id` "T1"; it is keyed under the auto team T1, so every
OPTIMAL or FEASIBLE solve emits its slot with `team_id` "T1" — no returned
slot carries the pin's own `team_id`, so the pin does not appear with
identical fields.  The model is feasible, so such solves exist. -/
theorem C1_counterexample :
    (∃ a, Satisfies reqC1 a) ∧
    ∀ a, Satisfies reqC1 a → ¬ claimC1 reqC1 (extractSolution reqC1 a) := by
  refine ⟨⟨asgZero, by decide⟩, ?_⟩
  intro a hsat
  have hc := hsat.1 0 (by decide) 0 (by decide)
  simp only [pairConstraint] at hc
  obtain ⟨-, -, -, -, -, hpin, -⟩ := hc
  rw [show wholePinFor reqC1 (patientAt reqC1 0).name (teamAt reqC1 0).id =
    some pinC1 from by decide] at hpin
  have hws : a.wholeStart 0 0 = 0 := by
    have h7 : a.wholeStart 0 0 =
        ((time_to_index pinC1.time_slot reqC1.time_slots : Nat) : Int) := hpin
    rw [show ((time_to_index pinC1.time_slot reqC1.time_slots : Nat) : Int) = 0
      from by decide] at h7
    exact h7
  have heq : extractSolution reqC1 a = extractSolution reqC1 asgZero := by
    apply extract_congr
    intro p hp t ht
    have hp1 := List.mem_range.mp hp
    have ht1 := List.mem_range.mp ht
    have hp0 : p = 0 := by
      have : numPatients reqC1 = 1 := by decide
      omega
    have ht0 : t = 0 := by
      have : numTeams reqC1 = 1 := by decide
      omega
    subst hp0
    subst ht0
    refine ⟨?_, fun _ => ?_, fun hm => ?_⟩
    · rw [modeValue_of_whole (by decide) a, modeValue_of_whole (by decide) asgZero]
    · rw [hws]
      rfl
    · exact absurd hm (by decide)
  rw [heq]
  decide

-- ---------------------------------------------------------------------------
-- Claim C2, counterexample
-- ---------------------------------------------------------------------------

/-- Claim C2 is false: in `reqC2` the patient arrives at 8:30 and the only
auto team is pinned there, but the appended non-auto pin at 8:00 is also
emitted for the patient, so the minimum emitted time index (0) is below
the arrival index (1) in every OPTIMAL or FEASIBLE solve; the model is
feasible. -/
theorem C2_counterexample :
    (∃ a, Satisfies reqC2 a) ∧
    ∀ a, Satisfies reqC2 a → ¬ claimC2 reqC2 a (extractSolution reqC2 a) := by
  refine ⟨⟨asgOne, by decide⟩, ?_⟩
  intro a hsat
  have hc := hsat.1 0 (by decide) 0 (by decide)
  simp only [pairConstraint] at hc
  obtain ⟨-, -, -, -, -, hpin, -⟩ := hc
  rw [show wholePinFor reqC2 (patientAt reqC2 0).name (teamAt reqC2 0).id =
    some pinC2a from by decide] at hpin
  have hws : a.wholeStart 0 0 = 1 := by
    have h7 : a.wholeStart 0 0 =
        ((time_to_index pinC2a.time_slot reqC2.time_slots : Nat) : Int) := hpin
    rw [show ((time_to_index pinC2a.time_slot reqC2.time_slots : Nat) : Int) = 1
      from by decide] at h7
    exact h7
  have heq : extractSolution reqC2 a = extractSolution reqC2 asgOne := by
    apply extract_congr
    intro p hp t ht
    have hp1 := List.mem_range.mp hp
    have ht1 := List.mem_range.mp ht
    have hp0 : p = 0 := by
      have : numPatients reqC2 = 1 := by decide
      omega
    have ht0 : t = 0 := by
      have : numTeams reqC2 = 1 := by decide
      omega
    subst hp0
    subst ht0
    refine ⟨?_, fun _ => ?_, fun hm => ?_⟩
    · rw [modeValue_of_whole (by decide) a, modeValue_of_whole (by decide) asgOne]
    · rw [hws]
      rfl
    · exact absurd hm (by decide)
  rw [heq]
  intro hcl
  have hB := (hcl 0 (by decide)).2.1
  exact absurd (hB ⟨"A", "8:00", "TX", true, false, none, none⟩ (by decide)
    (by decide)) (by decide)

-- ---------------------------------------------------------------------------
-- Claim C7, counterexample
-- ---------------------------------------------------------------------------

/-- Claim C7 is false: in `reqC7` the pin references the unknown patient
"ghost" and the non-auto team TX.  It is indeed excluded from the model
(it induces no interval), but the extraction's non-auto append loop does
not re-check the patient, so the pin is returned — it appears in the slot
list of every OPTIMAL or FEASIBLE solve; the model is feasible. -/
theorem C7_counterexample :
    (∃ a, Satisfies reqC7 a) ∧
    ∀ a, Satisfies reqC7 a → ¬ claimC7 reqC7 (extractSolution reqC7 a) := by
  refine ⟨⟨asgZero, by decide⟩, ?_⟩
  intro a hsat
  have htp := hsat.2.2.2.2.1 0 (by decide)
  obtain ⟨t, ht, heff⟩ := htp
  have ht0 : t = 0 := by
    have h1 := List.mem_range.mp ht
    have h2 : numTeams reqC7 = 1 := by decide
    omega
  subst ht0
  have hws : a.wholeStart 0 0 = 0 := by
    unfold effStart at heff
    rw [modeValue_of_whole (by decide) a] at heff
    rw [if_pos rfl] at heff
    rw [show ((arrIdx reqC7 0 : Nat) : Int) = 0 from by decide] at heff
    exact heff
  have heq : extractSolution reqC7 a = extractSolution reqC7 asgZero := by
    apply extract_congr
    intro p hp t ht
    have hp1 := List.mem_range.mp hp
    have ht1 := List.mem_range.mp ht
    have hp0 : p = 0 := by
      have : numPatients reqC7 = 1 := by decide
      omega
    have ht0 : t = 0 := by
      have : numTeams reqC7 = 1 := by decide
      omega
    subst hp0
    subst ht0
    refine ⟨?_, fun _ => ?_, fun hm => ?_⟩
    · rw [modeValue_of_whole (by decide) a, modeValue_of_whole (by decide) asgZero]
    · rw [hws]
      rfl
    · exact absurd hm (by decide)
  rw [heq]
  decide

-- ---------------------------------------------------------------------------
-- Claim C2, amended theorem
-- ---------------------------------------------------------------------------

/-- Claim C2 amended: for every solve that reaches the CP-SAT stage and
returns OPTIMAL or FEASIBLE, and for every patient: every start index
behind a slot emitted for an auto team is at or after the arrival index,
at least one team's effective start equals the arrival index, and some
auto-emitted start index attains it — so the minimum over the
auto-emitted slots equals the arrival; slots appended from non-auto pins
are not constrained by arrival (see the counterexample).  The last
conjunct ties the indices to the emitted slot times. -/
theorem C2_arrival_touchpoint (req : SolveRequest) (a : Assignment)
    (_hprep : solvePrepare req = some (.model req)) (hsat : Satisfies req a)
    (p : Nat) (hp : p ∈ List.range (numPatients req)) :
    (∀ i ∈ autoStartIdxs req a p, (arrIdx req p : Int) ≤ i) ∧
    (∃ t ∈ List.range (numTeams req),
      effStart req a p t = (arrIdx req p : Int)) ∧
    (∃ i ∈ autoStartIdxs req a p, i = (arrIdx req p : Int)) ∧
    (∀ t ∈ List.range (numTeams req),
      (pairSlots req a p t).map (fun s => s.time_slot) =
        (pairStartIdxs req a p t).map
          (fun i => index_to_time i.toNat req.time_slots)) := by
  obtain ⟨hpc, -, -, -, htp, -⟩ := hsat
  refine ⟨?_, htp p hp, ?_, ?_⟩
  · intro i hi
    unfold autoStartIdxs at hi
    obtain ⟨t, ht, hit⟩ := List.mem_flatMap.mp hi
    have hc := hpc p hp t ht
    simp only [pairConstraint] at hc
    obtain ⟨-, -, -, harr1, harr2, -, hsplit⟩ := hc
    unfold pairStartIdxs at hit
    cases hm : modeValue req a p t with
    | true =>
      rw [hm, if_pos rfl] at hit
      simp only [List.mem_singleton] at hit
      subst hit
      cases hsp : is_splittable (teamAt req t) with
      | false => exact harr2 hsp
      | true => exact harr1 hsp hm
    | false =>
      rw [hm, if_neg (by simp)] at hit
      have hsp := splittable_of_modeValue_false hm
      obtain ⟨s, hs, his⟩ := List.mem_flatMap.mp hit
      rw [if_pos hsp] at his
      simp only [List.mem_singleton] at his
      subst his
      exact (hsplit hsp s hs).2.2.1 hm
  · obtain ⟨t, ht, heff⟩ := htp p hp
    cases hm : modeValue req a p t with
    | true =>
      unfold effStart at heff
      rw [hm, if_pos rfl] at heff
      refine ⟨a.wholeStart p t, ?_, heff⟩
      unfold autoStartIdxs
      refine List.mem_flatMap.mpr ⟨t, ht, ?_⟩
      unfold pairStartIdxs
      rw [hm, if_pos rfl]
      simp
    | false =>
      unfold effStart at heff
      rw [hm, if_neg (by simp)] at heff
      have hsp := splittable_of_modeValue_false hm
      have hne : ((teamAt req t).specialty_ids).map (a.splitStart p t) ≠ [] := by
        have h2 := hsp
        unfold is_splittable at h2
        have hlen : 2 ≤ (teamAt req t).specialty_ids.length :=
          of_decide_eq_true h2
        cases hspec : (teamAt req t).specialty_ids with
        | nil =>
          rw [hspec] at hlen
          simp at hlen
        | cons x rest => simp
      obtain ⟨s, hs, hsa⟩ := List.mem_map.mp (listMinI_mem hne)
      refine ⟨a.splitStart p t s, ?_, by rw [hsa, heff]⟩
      unfold autoStartIdxs
      refine List.mem_flatMap.mpr ⟨t, ht, ?_⟩
      unfold pairStartIdxs
      rw [hm, if_neg (by simp)]
      exact List.mem_flatMap.mpr ⟨s, hs, by rw [if_pos hsp]; simp⟩
  · intro t ht
    unfold pairSlots pairStartIdxs
    cases hm : modeValue req a p t with
    | true =>
      simp only [if_pos rfl, List.map_cons, List.map_nil]
      rfl
    | false =>
      rw [if_neg (by simp), if_neg (by simp)]
      rw [List.map_flatMap, List.map_flatMap]
      refine List.flatMap_congr (fun s hs => ?_)
      cases hsp : is_splittable (teamAt req t) with
      | false =>
        rw [if_neg (by simp), if_neg (by simp)]
        rfl
      | true =>
        rw [if_pos rfl, if_pos rfl]
        simp only [List.map_cons, List.map_nil]
        rfl

theorem C2_arrival_touchpoint_witness :
    (∀ i ∈ autoStartIdxs reqC9 asgZero 0, (arrIdx reqC9 0 : Int) ≤ i) ∧
    (∃ t ∈ List.range (numTeams reqC9),
      effStart reqC9 asgZero 0 t = (arrIdx reqC9 0 : Int)) ∧
    (∃ i ∈ autoStartIdxs reqC9 asgZero 0, i = (arrIdx reqC9 0 : Int)) ∧
    (∀ t ∈ List.range (numTeams reqC9),
      (pairSlots reqC9 asgZero 0 t).map (fun s => s.time_slot) =
        (pairStartIdxs reqC9 asgZero 0 t).map
          (fun i => index_to_time i.toNat reqC9.time_slots)) :=
  C2_arrival_touchpoint reqC9 asgZero (by decide) (by decide) 0 (by decide)

-- ---------------------------------------------------------------------------
-- Structure of the non-auto append loop
-- ---------------------------------------------------------------------------

theorem appendNonAuto_subset_pins (req : SolveRequest) :
    ∀ (pins : List PinnedSlot) (emitted : List (String × String)),
      ∀ s ∈ appendNonAuto req pins emitted,
        ∃ ps ∈ pins, s = pinSlotResult ps ∧
          (autoIds req).contains (pyOr ps.original_team_id ps.team_id) = false := by
  intro pins
  induction pins with
  | nil =>
    intro emitted s hs
    simp [appendNonAuto] at hs
  | cons head rest ih =>
    intro emitted s hs
    unfold appendNonAuto at hs
    by_cases h1 : (autoIds req).contains (pyOr head.original_team_id head.team_id) = true
    · rw [if_pos h1] at hs
      obtain ⟨ps, hmem, h3⟩ := ih emitted s hs
      exact ⟨ps, List.mem_cons_of_mem _ hmem, h3⟩
    · rw [if_neg h1] at hs
      by_cases h2 : (head.patient_name, head.time_slot) ∈ emitted
      · rw [if_pos h2] at hs
        obtain ⟨ps, hmem, h3⟩ := ih emitted s hs
        exact ⟨ps, List.mem_cons_of_mem _ hmem, h3⟩
      · rw [if_neg h2] at hs
        rcases List.mem_cons.mp hs with h3 | h3
        · exact ⟨head, List.mem_cons_self _ _, h3, by simpa using h1⟩
        · obtain ⟨ps, hmem, h4⟩ := ih _ s h3
          exact ⟨ps, List.mem_cons_of_mem _ hmem, h4⟩

theorem appendNonAuto_covers (req : SolveRequest) :
    ∀ (pins : List PinnedSlot) (emitted : List (String × String))
      (ps : PinnedSlot), ps ∈ pins →
      (autoIds req).contains (pyOr ps.original_team_id ps.team_id) = false →
      pinSlotResult ps ∈ appendNonAuto req pins emitted ∨
      (ps.patient_name, ps.time_slot) ∈ emitted ∨
      ∃ s ∈ appendNonAuto req pins emitted,
        s.patient_name = ps.patient_name ∧ s.time_slot = ps.time_slot := by
  intro pins
  induction pins with
  | nil =>
    intro emitted ps h
    simp at h
  | cons head rest ih =>
    intro emitted ps hmem hna
    rcases List.mem_cons.mp hmem with heq | hmem2
    · subst heq
      unfold appendNonAuto
      rw [if_neg (by rw [hna]; simp)]
      by_cases h2 : (ps.patient_name, ps.time_slot) ∈ emitted
      · rw [if_pos h2]
        exact Or.inr (Or.inl h2)
      · rw [if_neg h2]
        exact Or.inl (List.mem_cons_self _ _)
    · unfold appendNonAuto
      by_cases h1 : (autoIds req).contains (pyOr head.original_team_id head.team_id) = true
      · rw [if_pos h1]
        exact ih emitted ps hmem2 hna
      · rw [if_neg h1]
        by_cases h2 : (head.patient_name, head.time_slot) ∈ emitted
        · rw [if_pos h2]
          exact ih emitted ps hmem2 hna
        · rw [if_neg h2]
          rcases ih ((head.patient_name, head.time_slot) :: emitted) ps hmem2 hna
            with h3 | h3 | h3
          · exact Or.inl (List.mem_cons_of_mem _ h3)
          · rcases List.mem_cons.mp h3 with h4 | h4
            · refine Or.inr (Or.inr ⟨pinSlotResult head, List.mem_cons_self _ _, ?_, ?_⟩)
              · have h5 := congrArg Prod.fst h4
                simpa [pinSlotResult] using h5.symm
              · have h5 := congrArg Prod.snd h4
                simpa [pinSlotResult] using h5.symm
            · exact Or.inr (Or.inl h4)
          · obtain ⟨s, hsm, hcomp⟩ := h3
            exact Or.inr (Or.inr ⟨s, List.mem_cons_of_mem _ hsm, hcomp⟩)

theorem pairSlots_patient {req : SolveRequest} {a : Assignment} {p t : Nat} :
    ∀ s ∈ pairSlots req a p t, s.patient_name = (patientAt req p).name := by
  intro s hs
  unfold pairSlots at hs
  by_cases hm : modeValue req a p t = true
  · rw [if_pos hm] at hs
    simp only [List.mem_singleton] at hs
    rw [hs]
    rfl
  · rw [if_neg hm] at hs
    obtain ⟨sp, hsp, hspl⟩ := List.mem_flatMap.mp hs
    by_cases h2 : is_splittable (teamAt req t) = true
    · rw [if_pos h2] at hspl
      simp only [List.mem_singleton] at hspl
      rw [hspl]
      rfl
    · rw [if_neg h2] at hspl
      simp at hspl

theorem autoSlots_patient {req : SolveRequest} {a : Assignment} :
    ∀ s ∈ autoSlots req a,
      ∃ p ∈ List.range (numPatients req),
        s.patient_name = (patientAt req p).name := by
  intro s hs
  unfold autoSlots at hs
  obtain ⟨p, hp, h2⟩ := List.mem_flatMap.mp hs
  obtain ⟨t, _, h3⟩ := List.mem_flatMap.mp h2
  exact ⟨p, hp, pairSlots_patient s h3⟩

theorem pinSlotResult_inj {ps ps2 : PinnedSlot}
    (h : pinSlotResult ps = pinSlotResult ps2) : ps = ps2 := by
  cases ps
  cases ps2
  simpa [pinSlotResult, SolveResultSlot.mk.injEq, PinnedSlot.mk.injEq] using h

theorem extract_cover_nonauto {req : SolveRequest} {a : Assignment}
    {ps : PinnedSlot} (hmem : ps ∈ req.pinned_slots)
    (hna : (autoIds req).contains (pyOr ps.original_team_id ps.team_id) = false) :
    pinSlotResult ps ∈ extractSolution req a ∨
    ∃ s ∈ extractSolution req a,
      s.patient_name = ps.patient_name ∧ s.time_slot = ps.time_slot := by
  have h := appendNonAuto_covers req req.pinned_slots
    ((autoSlots req a).map fun s => (s.patient_name, s.time_slot)) ps hmem hna
  rcases h with h1 | h1 | h1
  · left
    unfold extractSolution
    exact List.mem_append_right _ h1
  · right
    obtain ⟨s, hsm, hkey⟩ := List.mem_map.mp h1
    refine ⟨s, ?_, ?_, ?_⟩
    · unfold extractSolution
      exact List.mem_append_left _ hsm
    · exact (congrArg Prod.fst hkey)
    · exact (congrArg Prod.snd hkey)
  · obtain ⟨s, hsm, hcomp⟩ := h1
    right
    refine ⟨s, ?_, hcomp⟩
    unfold extractSolution
    exact List.mem_append_right _ hsm

-- ---------------------------------------------------------------------------
-- Claim C7, amended theorem
-- ---------------------------------------------------------------------------

/-- Claim C7 amended: on the solver path, a pinned slot whose patient is
unknown contributes no non-auto model interval; every returned slot's
patient is either a known patient or comes from a request pin whose
effective team id is not an auto team; a pin with unknown patient whose
effective team id IS an auto team id never appears (verbatim) in the
output; but one whose effective team id is not an auto team id is still
appended, marked pinned, unless its (patient, time) pair is already
occupied. -/
theorem C7_unknown_patient (req : SolveRequest) (a : Assignment)
    (_hprep : solvePrepare req = some (.model req)) :
    (∀ s ∈ extractSolution req a,
      (patientNames req).contains s.patient_name = true ∨
      ∃ ps ∈ req.pinned_slots, ps.patient_name = s.patient_name ∧
        (autoIds req).contains (pyOr ps.original_team_id ps.team_id) = false) ∧
    (∀ ps ∈ req.pinned_slots,
      (patientNames req).contains ps.patient_name = false →
        ps ∉ nonAutoModelPins req ∧
        ((autoIds req).contains (pyOr ps.original_team_id ps.team_id) = true →
          pinSlotResult ps ∉ extractSolution req a) ∧
        ((autoIds req).contains (pyOr ps.original_team_id ps.team_id) = false →
          pinSlotResult ps ∈ extractSolution req a ∨
          ∃ s ∈ extractSolution req a,
            s.patient_name = ps.patient_name ∧ s.time_slot = ps.time_slot)) := by
  constructor
  · intro s hs
    unfold extractSolution at hs
    rcases List.mem_append.mp hs with h1 | h1
    · obtain ⟨p, hp, hname⟩ := autoSlots_patient s h1
      left
      rw [hname]
      exact patientAt_name_contains hp
    · obtain ⟨ps, hmem, hcast, hna⟩ := appendNonAuto_subset_pins req _ _ s h1
      right
      exact ⟨ps, hmem, by rw [hcast]; rfl, hna⟩
  · intro ps hmem hunknown
    refine ⟨?_, ?_, fun hna => extract_cover_nonauto hmem hna⟩
    · intro hin
      have h2 := (List.mem_filter.mp hin).2
      rw [hunknown] at h2
      simp at h2
    · intro hauto hin
      unfold extractSolution at hin
      rcases List.mem_append.mp hin with h1 | h1
      · obtain ⟨p, hp, hname⟩ := autoSlots_patient _ h1
        have h2 := patientAt_name_contains hp
        rw [← hname] at h2
        have h3 : (pinSlotResult ps).patient_name = ps.patient_name := rfl
        rw [h3] at h2
        rw [hunknown] at h2
        simp at h2
      · obtain ⟨ps2, _, hcast, hna2⟩ := appendNonAuto_subset_pins req _ _ _ h1
        have h4 := pinSlotResult_inj hcast
        subst h4
        rw [hauto] at hna2
        simp at hna2

def reqW7 : SolveRequest := ⟨[patA], [teamT1, teamTX], [], [pinC7], defaultTimeSlots⟩

theorem C7_unknown_patient_witness :
    pinC7 ∉ nonAutoModelPins reqW7 ∧
    (pinSlotResult pinC7 ∈ extractSolution reqW7 asgZero ∨
      ∃ s ∈ extractSolution reqW7 asgZero,
        s.patient_name = pinC7.patient_name ∧ s.time_slot = pinC7.time_slot) := by
  have h := (C7_unknown_patient reqW7 asgZero (by decide)).2 pinC7 (by decide)
    (by decide)
  exact ⟨h.1, h.2.2 (by decide)⟩

-- ---------------------------------------------------------------------------
-- Claim C8: shape of split-mode output slots
-- ---------------------------------------------------------------------------

theorem sublist_flatMap_of_mem {α β : Type} (f : α → List β) {l : List α}
    {x : α} (h : x ∈ l) : (f x).Sublist (l.flatMap f) := by
  obtain ⟨l1, l2, rfl⟩ := List.append_of_mem h
  rw [List.flatMap_append, List.flatMap_cons]
  exact (List.sublist_append_left (f x) _).trans (List.sublist_append_right _ _)

/-- In split mode, a specialty occurring twice in the team's list would put
the same present unit interval twice into that specialty's no-overlap
list, making the model infeasible; hence under any satisfying assignment
each specialty of a split-mode pair occurs exactly once. -/
theorem specs_count_eq_one {req : SolveRequest} {a : Assignment} {p t : Nat}
    (hsat : Satisfies req a) (hp : p ∈ List.range (numPatients req))
    (ht : t ∈ List.range (numTeams req)) (hm : modeValue req a p t = false)
    {sp : String} (hspmem : sp ∈ (teamAt req t).specialty_ids) :
    (teamAt req t).specialty_ids.count sp = 1 := by
  have hsp := splittable_of_modeValue_false hm
  have hone : 1 ≤ (teamAt req t).specialty_ids.count sp :=
    List.one_le_count_iff.mpr hspmem
  by_contra hne
  have htwo : 2 ≤ (teamAt req t).specialty_ids.count sp := by omega
  have hdup := List.duplicate_iff_two_le_count.mpr htwo
  have hsub1 : List.Sublist [sp, sp] (teamAt req t).specialty_ids :=
    List.duplicate_iff_sublist.mp hdup
  obtain ⟨-, -, -, hspecC, -, -⟩ := hsat
  have hkey : sp ∈ specKeys req := by
    unfold specKeys
    refine List.mem_append.mpr (Or.inl ?_)
    refine List.mem_flatMap.mpr ⟨teamAt req t, ?_, hspmem⟩
    have hlt := List.mem_range.mp ht
    have h2 : teamAt req t ∈ autoTeams req := by
      unfold teamAt
      rw [List.getD_eq_getElem _ _ hlt]
      exact List.getElem_mem _
    exact List.mem_of_mem_filter h2
  have hpw := hspecC sp hkey
  have hxin : splitIv req a p t sp ∈ (List.range (numPatients req)).flatMap
      (fun p2 => wholeIv req a p2 t ::
        (if is_splittable (teamAt req t) then [splitIv req a p2 t sp]
         else [])) := by
    refine List.mem_flatMap.mpr ⟨p, hp, List.mem_cons_of_mem _ ?_⟩
    rw [if_pos hsp]
    simp
  have hchain : List.Sublist [splitIv req a p t sp, splitIv req a p t sp]
      (specIvsAuto req a sp ++ specIvsNonAuto req sp) := by
    refine List.Sublist.trans ?_ (List.sublist_append_left _ _)
    unfold specIvsAuto
    refine List.Sublist.trans ?_ (sublist_flatMap_of_mem _ ht)
    refine List.Sublist.trans ?_ (sublist_flatMap _ hsub1)
    have hGsp : splitIv req a p t sp ∈
        (if sp = sp then (List.range (numPatients req)).flatMap
          (fun p2 => wholeIv req a p2 t ::
            (if is_splittable (teamAt req t) then [splitIv req a p2 t sp]
             else []))
         else []) := by
      rw [if_pos rfl]
      exact hxin
    have h9 := (List.singleton_sublist.mpr hGsp).append
      (List.singleton_sublist.mpr hGsp)
    simpa using h9
  have hno : ¬ overlaps (splitIv req a p t sp) (splitIv req a p t sp) := by
    have h10 := hpw.sublist hchain
    cases h10 with
    | cons h3 _ => exact h3 _ (by simp)
  apply hno
  refine ⟨?_, ?_, by norm_num [splitIv], by norm_num [splitIv], ?_, ?_⟩
  · simp [splitIv, hm]
  · simp [splitIv, hm]
  · simp only [splitIv]
    omega
  · simp only [splitIv]
    omega

/-- Claim C8 confirmed: every slot emitted for a pair in split mode carries
the synthetic id `split_<team>_<specialty>`, `is_split = true`,
`original_team_id` = the team id and `split_specialty_id` = the specialty,
with exactly one such slot per specialty the team covers. -/
theorem C8_split_slot_shape (req : SolveRequest) (a : Assignment)
    (_hprep : solvePrepare req = some (.model req)) (hsat : Satisfies req a)
    (p t : Nat) (hp : p ∈ List.range (numPatients req))
    (ht : t ∈ List.range (numTeams req)) (hm : modeValue req a p t = false) :
    (∀ s ∈ pairSlots req a p t,
      ∃ sp ∈ (teamAt req t).specialty_ids,
        s.team_id = "split_" ++ (teamAt req t).id ++ "_" ++ sp ∧
        s.is_split = true ∧ s.original_team_id = some (teamAt req t).id ∧
        s.split_specialty_id = some sp) ∧
    (∀ sp ∈ (teamAt req t).specialty_ids,
      (pairSlots req a p t).countP
        (fun s => s.split_specialty_id == some sp) = 1) := by
  have hsp := splittable_of_modeValue_false hm
  have hps : pairSlots req a p t =
      (teamAt req t).specialty_ids.map (splitSlot req a p t) := by
    unfold pairSlots
    rw [if_neg (by rw [hm]; simp)]
    refine Eq.trans (List.flatMap_congr fun s _ => if_pos hsp) ?_
    exact Eq.symm (List.map_eq_flatMap _ _)
  constructor
  · intro s hs
    rw [hps] at hs
    obtain ⟨sp, hspm, hcast⟩ := List.mem_map.mp hs
    refine ⟨sp, hspm, ?_, ?_, ?_, ?_⟩ <;> rw [← hcast] <;> rfl
  · intro sp hspm
    rw [hps, List.countP_map]
    have hpred : ((fun s => s.split_specialty_id == some sp) ∘
        splitSlot req a p t) = (fun s2 => s2 == sp) := by
      funext s2
      simp [splitSlot, Function.comp]
    rw [hpred, ← List.count_eq_countP]
    exact specs_count_eq_one hsat hp ht hm hspm

theorem C8_split_slot_shape_witness :
    (∀ s ∈ pairSlots reqC8 asgSplit 0 0,
      ∃ sp ∈ (teamAt reqC8 0).specialty_ids,
        s.team_id = "split_" ++ (teamAt reqC8 0).id ++ "_" ++ sp ∧
        s.is_split = true ∧ s.original_team_id = some (teamAt reqC8 0).id ∧
        s.split_specialty_id = some sp) ∧
    (∀ sp ∈ (teamAt reqC8 0).specialty_ids,
      (pairSlots reqC8 asgSplit 0 0).countP
        (fun s => s.split_specialty_id == some sp) = 1) :=
  C8_split_slot_shape reqC8 asgSplit (by decide) (by decide) 0 0 (by decide)
    (by decide) (by decide)

-- ---------------------------------------------------------------------------
-- Claim C1: pin passthrough, amended
-- ---------------------------------------------------------------------------

theorem whole_pin_emitted {req : SolveRequest} {a : Assignment}
    {ps : PinnedSlot} (hprep : solvePrepare req = some (.model req))
    (hsat : Satisfies req a) {p t : Nat}
    (hp : p ∈ List.range (numPatients req))
    (ht : t ∈ List.range (numTeams req))
    (hname : (patientAt req p).name = ps.patient_name)
    (hid : (teamAt req t).id = ps.team_id)
    (hpyor : pyOr ps.original_team_id ps.team_id = ps.team_id)
    (hns : ps.is_split = false)
    (hsn : ps.split_specialty_id = none)
    (hwp : wholePinFor req ps.patient_name ps.team_id = some ps)
    (hmem : ps ∈ req.pinned_slots) :
    appearsAsPinned ps (extractSolution req a) := by
  have hfw : force_whole req p t = true := by
    unfold force_whole
    rw [hname, hid, hwp]
    rfl
  have hmv := modeValue_of_whole (mode_type_whole_of_force_whole hfw) a
  have hc := hsat.1 p hp t ht
  simp only [pairConstraint] at hc
  obtain ⟨-, -, -, -, -, hpin, -⟩ := hc
  rw [hname, hid, hwp] at hpin
  have hws : a.wholeStart p t =
      ((time_to_index ps.time_slot req.time_slots : Nat) : Int) := hpin
  obtain ⟨-, hnorm, -, -⟩ := solvePrepare_model_elim hprep
  obtain ⟨-, -, hpairs⟩ := hnorm
  have h3 := (hpairs p hp t ht).1
  rw [hname, hid, hwp] at h3
  have hgrid : ps.time_slot ∈ req.time_slots := h3
  refine ⟨wholeSlot req a p t, ?_, ?_, ?_, ?_, ?_⟩
  · apply pairSlots_mem_extract hp ht
    unfold pairSlots
    rw [hmv]
    simp
  · show req.pinned_slots.any (fun ps2 =>
      ps2.patient_name == (patientAt req p).name &&
        pyOr ps2.original_team_id ps2.team_id == (teamAt req t).id &&
        !ps2.is_split) = true
    refine List.any_eq_true.mpr ⟨ps, hmem, ?_⟩
    rw [hname, hid, hpyor, hns]
    simp
  · show index_to_time (a.wholeStart p t).toNat req.time_slots = ps.time_slot
    rw [hws]
    have h6 : ((time_to_index ps.time_slot req.time_slots : Nat) : Int).toNat =
        time_to_index ps.time_slot req.time_slots := by omega
    rw [h6]
    exact index_time_roundtrip hgrid
  · exact hid
  · show (none : Option String) = ps.split_specialty_id
    rw [hsn]

theorem split_pin_emitted {req : SolveRequest} {a : Assignment}
    {ps : PinnedSlot} (hprep : solvePrepare req = some (.model req))
    (hsat : Satisfies req a) {p t : Nat} {o sp : String}
    (hp : p ∈ List.range (numPatients req))
    (ht : t ∈ List.range (numTeams req))
    (hname : (patientAt req p).name = ps.patient_name)
    (hid : (teamAt req t).id = o)
    (horig : ps.original_team_id = some o)
    (hspec : ps.split_specialty_id = some sp)
    (hissplit : ps.is_split = true)
    (hteamid : ps.team_id = "split_" ++ o ++ "_" ++ sp)
    (hsplittable : is_splittable (teamAt req t) = true)
    (hspmem : sp ∈ (teamAt req t).specialty_ids)
    (hnowhole : wholePinFor req ps.patient_name o = none)
    (hsplitpin : splitPinFor req ps.patient_name o sp = some ps)
    (hmem : ps ∈ req.pinned_slots) :
    appearsAsPinned ps (extractSolution req a) := by
  have hfw : force_whole req p t = false := by
    unfold force_whole
    rw [hname, hid, hnowhole]
    rfl
  have hfs : force_split req p t = true := by
    unfold force_split
    refine List.any_eq_true.mpr ⟨sp, hspmem, ?_⟩
    rw [hname, hid, hsplitpin]
    rfl
  have hmv := modeValue_of_split (mode_type_split_intro hsplittable hfw hfs) a
  have hc := hsat.1 p hp t ht
  simp only [pairConstraint] at hc
  obtain ⟨-, -, -, -, -, -, hsplit⟩ := hc
  have h4 := (hsplit hsplittable sp hspmem).2.2.2
  rw [hname, hid, hsplitpin] at h4
  have hss : a.splitStart p t sp =
      ((time_to_index ps.time_slot req.time_slots : Nat) : Int) := h4
  obtain ⟨-, hnorm, -, -⟩ := solvePrepare_model_elim hprep
  obtain ⟨-, -, hpairs⟩ := hnorm
  have h5 := (hpairs p hp t ht).2 sp hspmem
  rw [hname, hid, hsplitpin] at h5
  have hgrid : ps.time_slot ∈ req.time_slots := h5
  refine ⟨splitSlot req a p t sp, ?_, ?_, ?_, ?_, ?_⟩
  · apply pairSlots_mem_extract hp ht
    unfold pairSlots
    rw [hmv]
    rw [if_neg (by simp)]
    refine List.mem_flatMap.mpr ⟨sp, hspmem, ?_⟩
    rw [if_pos hsplittable]
    simp
  · show req.pinned_slots.any (fun ps2 =>
      ps2.patient_name == (patientAt req p).name && ps2.is_split &&
        ps2.original_team_id == some (teamAt req t).id &&
        ps2.split_specialty_id == some sp) = true
    refine List.any_eq_true.mpr ⟨ps, hmem, ?_⟩
    rw [hname, hid, horig, hspec, hissplit]
    simp
  · show index_to_time (a.splitStart p t sp).toNat req.time_slots = ps.time_slot
    rw [hss]
    have h6 : ((time_to_index ps.time_slot req.time_slots : Nat) : Int).toNat =
        time_to_index ps.time_slot req.time_slots := by omega
    rw [h6]
    exact index_time_roundtrip hgrid
  · show "split_" ++ (teamAt req t).id ++ "_" ++ sp = ps.team_id
    rw [hid, hteamid]
  · show (some sp : Option String) = ps.split_specialty_id
    rw [hspec]

/-- Claim C1 amended: on the empty-input fast path every pin appears
verbatim with pinned = true.  On the solver path: (i) every pin whose
effective team id (original or team_id, Python truthiness) is not an auto
team id is appended verbatim with pinned = true, unless another returned
slot already occupies its (patient, time_slot) pair; (ii) a whole auto pin
whose patient is known, whose effective id equals its own team_id and
names an auto team, which is not split-shaped, and which is the last pin
for its key, appears with pinned = true and identical time_slot, team_id
and (empty) split_specialty_id; (iii) a split auto pin whose patient is
known, whose original team is a splittable auto team covering the pinned
specialty, with no whole pin for the pair, which is the last pin for its
key and whose team_id follows the synthetic naming, appears with
pinned = true and identical fields.  Other pins (unknown patients, keys
that match no pair, split pins overridden by a whole pin or on non-
splittable teams) can be dropped or renamed — see the counterexample. -/
theorem C1_pin_passthrough (req : SolveRequest) :
    ((numPatients req = 0 ∨ numTeams req = 0) →
      claimC1 req (pinned_slots_to_result req.pinned_slots)) ∧
    (∀ a, Satisfies req a → solvePrepare req = some (.model req) →
      ∀ ps ∈ req.pinned_slots,
        ((autoIds req).contains (pyOr ps.original_team_id ps.team_id) = false →
          pinSlotResult ps ∈ extractSolution req a ∨
          ∃ s ∈ extractSolution req a,
            s.patient_name = ps.patient_name ∧ s.time_slot = ps.time_slot) ∧
        ((patientNames req).contains ps.patient_name = true →
          pyOr ps.original_team_id ps.team_id = ps.team_id →
          (autoIds req).contains ps.team_id = true →
          ps.is_split = false → ps.split_specialty_id = none →
          wholePinFor req ps.patient_name ps.team_id = some ps →
          appearsAsPinned ps (extractSolution req a)) ∧
        (∀ o sp t, ps.original_team_id = some o →
          ps.split_specialty_id = some sp → ps.is_split = true →
          ps.team_id = "split_" ++ o ++ "_" ++ sp →
          (patientNames req).contains ps.patient_name = true →
          t ∈ List.range (numTeams req) → (teamAt req t).id = o →
          is_splittable (teamAt req t) = true →
          sp ∈ (teamAt req t).specialty_ids →
          wholePinFor req ps.patient_name o = none →
          splitPinFor req ps.patient_name o sp = some ps →
          appearsAsPinned ps (extractSolution req a))) := by
  constructor
  · intro _ ps hmem
    exact ⟨pinSlotResult ps, List.mem_map.mpr ⟨ps, hmem, rfl⟩, rfl, rfl, rfl, rfl⟩
  · intro a hsat hprep ps hmem
    refine ⟨fun hna => extract_cover_nonauto hmem hna, ?_, ?_⟩
    · intro hknown hpyor hauto hns hsn hwp
      obtain ⟨p, hp, hname⟩ := exists_patient_of_name_contains hknown
      obtain ⟨t, ht, hid⟩ := exists_team_of_id_contains hauto
      exact whole_pin_emitted hprep hsat hp ht hname hid hpyor hns hsn hwp hmem
    · intro o sp t horig hspec hissplit hteamid hknown ht hid hsplittable
        hspmem hnowhole hsplitpin
      obtain ⟨p, hp, hname⟩ := exists_patient_of_name_contains hknown
      exact split_pin_emitted hprep hsat hp ht hname hid horig hspec hissplit
        hteamid hsplittable hspmem hnowhole hsplitpin hmem

def pinW1whole : PinnedSlot := ⟨"A", "8:00", "T1", false, none, none⟩

def pinW1split : PinnedSlot :=
  ⟨"A", "8:30", "split_T2_S1", true, some "T2", some "S1"⟩

def pinW1na : PinnedSlot := ⟨"A", "10:00", "TX", false, none, none⟩

def reqW1 : SolveRequest :=
  ⟨[patA], [teamT1, teamT2, teamTX], [],
    [pinW1whole, pinW1split, pinW1na], defaultTimeSlots⟩

def asgW1 : Assignment :=
  ⟨fun _ _ => 0, fun _ _ s => if s = "S1" then 1 else 2, fun _ _ => false⟩

theorem C1_pin_passthrough_witness :
    appearsAsPinned pinW1whole (extractSolution reqW1 asgW1) ∧
    appearsAsPinned pinW1split (extractSolution reqW1 asgW1) ∧
    (pinSlotResult pinW1na ∈ extractSolution reqW1 asgW1 ∨
      ∃ s ∈ extractSolution reqW1 asgW1,
        s.patient_name = pinW1na.patient_name ∧
        s.time_slot = pinW1na.time_slot) := by
  have h := (C1_pin_passthrough reqW1).2 asgW1 (by decide) (by decide)
  refine ⟨?_, ?_, ?_⟩
  · exact (h pinW1whole (by decide)).2.1 (by decide) (by decide) (by decide)
      (by decide) (by decide) (by decide)
  · exact (h pinW1split (by decide)).2.2 "T2" "S1" 1 (by decide) (by decide)
      (by decide) (by decide) (by decide) (by decide) (by decide) (by decide)
      (by decide) (by decide) (by decide)
  · exact (h pinW1na (by decide)).1 (by decide)
